import Mathlib

/-!
Verification of the tractography spectral-clustering pipeline
(src/distance.py and src/cluster.py) against its design specification.

Modelling conventions: floating-point arrays are embedded as exact
rational (ℚ) or real (ℝ) valued functions; the geometric layer
(distances, min-max normalization) is kept in ℚ so that concrete
instances evaluate, while the Gaussian kernel and everything downstream
of it live in ℝ (Real.exp has no rational restriction).  Real division
follows Lean's total-function convention (x / 0 = 0).  NumPy axis-0
reductions become reductions over the row index, matching the source.
-/

/-- A fiber: an ordered sequence of P 3D points, exposed as three
per-axis coordinate arrays, mirroring the attributes fiber.x, fiber.y,
fiber.z read by src/distance.py. -/
structure Fiber (P : ℕ) where
  x : Fin P → ℚ
  y : Fin P → ℚ
  z : Fin P → ℚ

/-- Modelled from the spec: fibers.py (the in-memory fiber container
providing getReverseFiber) is not under src/; the spec says every fiber
carries "a precomputed reversed-order variant", i.e. the same points in
reverse order. -/
def Fiber.getReverseFiber {P : ℕ} (f : Fiber P) : Fiber P where
  x := fun i => f.x i.rev
  y := fun i => f.y i.rev
  z := fun i => f.z i.rev

/-- A FiberCollection: N fibers of P points each, exposed as the three
N x P coordinate arrays fiberArray_x / _y / _z read by src/distance.py;
pts_per_fiber is the type index P. -/
structure FiberArray (N P : ℕ) where
  fiberArray_x : Fin N → Fin P → ℚ
  fiberArray_y : Fin N → Fin P → ℚ
  fiberArray_z : Fin N → Fin P → ℚ

/-- Modelled from the spec: fibers.py (getFiber) is not under src/; the
collection exposes fiber i as the i-th row of the three coordinate
arrays. -/
def FiberArray.getFiber {N P : ℕ} (A : FiberArray N P) (i : Fin N) : Fiber P where
  x := A.fiberArray_x i
  y := A.fiberArray_y i
  z := A.fiberArray_z i

/-- A collection holding a single fiber, used to state the pairwise
claims of the form fiberDistance(F, \x7bG\x7d). -/
def FiberArray.single {P : ℕ} (f : Fiber P) : FiberArray 1 P where
  fiberArray_x := fun _ => f.x
  fiberArray_y := fun _ => f.y
  fiberArray_z := fun _ => f.z

/-- src/distance.py lines 10-40, _fiberDistance_internal: per-axis
differences against the broadcast single fiber, squared, summed across
the three axes and along the P points, divided by pts_per_fiber. -/
def fiberDistance_internal {N P : ℕ} (fiber : Fiber P) (fiberArray : FiberArray N P) :
    Fin N → ℚ :=
  fun j =>
    (∑ p, ((fiberArray.fiberArray_x j p - fiber.x p) ^ 2
          + (fiberArray.fiberArray_y j p - fiber.y p) ^ 2
          + (fiberArray.fiberArray_z j p - fiber.z p) ^ 2)) / (P : ℚ)

/-- src/distance.py lines 66-90, fiberDistance: the element-wise minimum
of the positional distance computed against the fiber as stored and
against its point-reversed variant. -/
def fiberDistance {N P : ℕ} (fiber : Fiber P) (fiberArray : FiberArray N P) :
    Fin N → ℚ :=
  fun j => min (fiberDistance_internal fiber fiberArray j)
               (fiberDistance_internal fiber.getReverseFiber fiberArray j)

/-- The positional mean-squared distance between two fibers; this is
what fiberDistance_internal computes against row j of the collection. -/
def pairMSD {P : ℕ} (f g : Fiber P) : ℚ :=
  (∑ p, ((g.x p - f.x p) ^ 2 + (g.y p - f.y p) ^ 2 + (g.z p - f.z p) ^ 2)) / (P : ℚ)

lemma fiberDistance_internal_apply {N P : ℕ} (f : Fiber P) (A : FiberArray N P)
    (j : Fin N) : fiberDistance_internal f A j = pairMSD f (A.getFiber j) := rfl

lemma fiberDistance_apply {N P : ℕ} (f : Fiber P) (A : FiberArray N P) (j : Fin N) :
    fiberDistance f A j
      = min (pairMSD f (A.getFiber j)) (pairMSD f.getReverseFiber (A.getFiber j)) := rfl

lemma pairMSD_comm {P : ℕ} (f g : Fiber P) : pairMSD f g = pairMSD g f := by
  unfold pairMSD
  congr 1
  exact Finset.sum_congr rfl (fun p _ => by ring)

lemma pairMSD_rev_rev {P : ℕ} (f g : Fiber P) :
    pairMSD f.getReverseFiber g = pairMSD g.getReverseFiber f := by
  unfold pairMSD Fiber.getReverseFiber
  congr 1
  refine Fintype.sum_bijective Fin.rev Fin.rev_involutive.bijective _ _ (fun p => ?_)
  simp only [Fin.rev_rev]
  ring

lemma pairMSD_nonneg {P : ℕ} (f g : Fiber P) : 0 ≤ pairMSD f g := by
  unfold pairMSD
  apply div_nonneg _ (by positivity)
  exact Finset.sum_nonneg (fun p _ => by positivity)

lemma pairMSD_self {P : ℕ} (f : Fiber P) : pairMSD f f = 0 := by
  unfold pairMSD
  simp

lemma getFiber_single {P : ℕ} (f : Fiber P) (j : Fin 1) :
    (FiberArray.single f).getFiber j = f := rfl

/-- C1. For every pair of fibers F and G with the same number of points
P >= 1, the public distance operation is symmetric and zero on identical
fibers: fiberDistance(F, \x7bG\x7d) = fiberDistance(G, \x7bF\x7d) and
fiberDistance(F, \x7bF\x7d) = 0. -/
theorem fiberDistance_symm_and_self_zero {P : ℕ} (hP : 1 ≤ P) (F G : Fiber P) :
    fiberDistance F (FiberArray.single G) 0 = fiberDistance G (FiberArray.single F) 0
      ∧ fiberDistance F (FiberArray.single F) 0 = 0 := by
  constructor
  · rw [fiberDistance_apply, fiberDistance_apply, getFiber_single, getFiber_single,
      pairMSD_comm G F, pairMSD_rev_rev]
  · rw [fiberDistance_apply, getFiber_single, pairMSD_self]
    exact min_eq_left (pairMSD_nonneg _ _)

/-- One concrete fiber with a single point, for witnessing. -/
def exFiberF : Fiber 1 := ⟨fun _ => 1, fun _ => 2, fun _ => 3⟩

/-- A second concrete single-point fiber, for witnessing. -/
def exFiberG : Fiber 1 := ⟨fun _ => 0, fun _ => 0, fun _ => 0⟩

theorem fiberDistance_symm_and_self_zero_witness :
    1 ≤ 1
      ∧ (fiberDistance exFiberF (FiberArray.single exFiberG) 0
           = fiberDistance exFiberG (FiberArray.single exFiberF) 0
         ∧ fiberDistance exFiberF (FiberArray.single exFiberF) 0 = 0) :=
  ⟨le_refl 1, fiberDistance_symm_and_self_zero (le_refl 1) exFiberF exFiberG⟩

/-- Column minimum of a square matrix (NumPy-style axis-0 reduction, as
used by sklearn MinMaxScaler inside _pairwiseDistance_matrix). -/
def colMin {N : ℕ} [NeZero N] (M : Matrix (Fin N) (Fin N) ℚ) (j : Fin N) : ℚ :=
  Finset.univ.inf' Finset.univ_nonempty (fun i => M i j)

/-- Column maximum of a square matrix (NumPy-style axis-0 reduction). -/
def colMax {N : ℕ} [NeZero N] (M : Matrix (Fin N) (Fin N) ℚ) (j : Fin N) : ℚ :=
  Finset.univ.sup' Finset.univ_nonempty (fun i => M i j)

/-- sklearn.preprocessing.MinMaxScaler().fit_transform as invoked at
src/cluster.py line 105: each column is rescaled by that column's own
minimum and maximum (feature_range (0,1)); a zero column range is
replaced by 1 before dividing. -/
def minMaxScaler {N : ℕ} [NeZero N] (M : Matrix (Fin N) (Fin N) ℚ) :
    Matrix (Fin N) (Fin N) ℚ :=
  fun i j =>
    (M i j - colMin M j) /
      (if colMax M j - colMin M j = 0 then 1 else colMax M j - colMin M j)

/-- src/cluster.py lines 95-103: row i of the raw distance matrix is
fiberDistance from fiber i to the whole collection (rows independent,
computed in parallel in the source). -/
def rawDistanceMatrix {N P : ℕ} (A : FiberArray N P) : Matrix (Fin N) (Fin N) ℚ :=
  fun i j => fiberDistance (A.getFiber i) A j

/-- src/cluster.py lines 82-107, _pairwiseDistance_matrix: the raw
matrix followed by the MinMaxScaler normalization. -/
def pairwiseDistance_matrix {N P : ℕ} [NeZero N] (A : FiberArray N P) :
    Matrix (Fin N) (Fin N) ℚ :=
  minMaxScaler (rawDistanceMatrix A)

/-- src/distance.py lines 103-118, gausKernel_similarity: the Gaussian
kernel exp(-distance / (2 sigmasq)). -/
noncomputable def gausKernel_similarity (distance sigmasq : ℝ) : ℝ :=
  Real.exp (-distance / (2 * sigmasq))

/-- src/cluster.py lines 109-129, _pairwiseSimilarity_matrix: the kernel
applied entrywise to the normalized distance matrix with sigmasq =
sigma squared. -/
noncomputable def pairwiseSimilarity_matrix {N P : ℕ} [NeZero N] (A : FiberArray N P) (sigma : ℚ) :
    Matrix (Fin N) (Fin N) ℝ :=
  fun i j => gausKernel_similarity ((pairwiseDistance_matrix A i j : ℚ) : ℝ)
    ((sigma : ℝ) ^ 2)

/-- src/cluster.py lines 177-183, _degreeMatrix: diagonal matrix of the
axis-0 (column) sums of the input matrix. -/
noncomputable def degreeMatrix {N : ℕ} (W : Matrix (Fin N) (Fin N) ℝ) : Matrix (Fin N) (Fin N) ℝ :=
  Matrix.diagonal (fun j => ∑ i, W i j)

/-- src/cluster.py lines 52-56: L = D - W and Lrw = diag(1 / sum(D, 0))
dot L; the axis-0 sum of the diagonal matrix D is its diagonal, i.e. the
column sums of W. -/
noncomputable def laplacianRW {N : ℕ} (W : Matrix (Fin N) (Fin N) ℝ) : Matrix (Fin N) (Fin N) ℝ :=
  Matrix.diagonal (fun i => 1 / ∑ k, degreeMatrix W k i) * (degreeMatrix W - W)

/-- C10. For every distance d >= 0 and kernel width sigma > 0, the
Gaussian kernel similarity exp(-d / (2 sigma^2)) lies in (0, 1], equals
1 if and only if d = 0, and is strictly decreasing in d. -/
theorem gausKernel_similarity_bounds (d sigma : ℝ) (hd : 0 ≤ d) (hs : 0 < sigma) :
    (0 < gausKernel_similarity d (sigma ^ 2)
        ∧ gausKernel_similarity d (sigma ^ 2) ≤ 1)
      ∧ (gausKernel_similarity d (sigma ^ 2) = 1 ↔ d = 0)
      ∧ ∀ d', d < d' →
          gausKernel_similarity d' (sigma ^ 2) < gausKernel_similarity d (sigma ^ 2) := by
  have hs2 : 0 < 2 * sigma ^ 2 := by positivity
  refine ⟨⟨Real.exp_pos _, ?_⟩, ?_, ?_⟩
  · rw [gausKernel_similarity, Real.exp_le_one_iff]
    apply div_nonpos_of_nonpos_of_nonneg (by linarith) (le_of_lt hs2)
  · rw [gausKernel_similarity, Real.exp_eq_one_iff _, div_eq_zero_iff, neg_eq_zero]
    constructor
    · rintro (h | h)
      · exact h
      · exact absurd h (ne_of_gt hs2)
    · exact fun h => Or.inl h
  · intro d' hdd'
    rw [gausKernel_similarity, gausKernel_similarity]
    apply Real.exp_lt_exp.mpr
    rw [neg_div, neg_div]
    exact neg_lt_neg ((div_lt_div_iff_of_pos_right hs2).mpr hdd')

theorem gausKernel_similarity_bounds_witness :
    ((0:ℝ) ≤ 1 ∧ (0:ℝ) < 1)
      ∧ ((0 < gausKernel_similarity 1 ((1:ℝ) ^ 2)
            ∧ gausKernel_similarity 1 ((1:ℝ) ^ 2) ≤ 1)
          ∧ (gausKernel_similarity 1 ((1:ℝ) ^ 2) = 1 ↔ (1:ℝ) = 0)
          ∧ ∀ d', (1:ℝ) < d' →
              gausKernel_similarity d' ((1:ℝ) ^ 2) < gausKernel_similarity 1 ((1:ℝ) ^ 2)) :=
  ⟨⟨zero_le_one, zero_lt_one⟩,
    gausKernel_similarity_bounds 1 1 zero_le_one zero_lt_one⟩

lemma rawDistanceMatrix_nonneg {N P : ℕ} (A : FiberArray N P) (i j : Fin N) :
    0 ≤ rawDistanceMatrix A i j := by
  rw [rawDistanceMatrix, fiberDistance_apply]
  exact le_min (pairMSD_nonneg _ _) (pairMSD_nonneg _ _)

lemma rawDistanceMatrix_diag {N P : ℕ} (A : FiberArray N P) (i : Fin N) :
    rawDistanceMatrix A i i = 0 := by
  rw [rawDistanceMatrix, fiberDistance_apply, pairMSD_self]
  exact min_eq_left (pairMSD_nonneg _ _)

/-- C3 amended part: the raw (pre-normalization) distance matrix is
symmetric, because the positional mean-squared distance is symmetric in
its two fibers and so is its reversed-operand variant. -/
theorem rawDistanceMatrix_symm {N P : ℕ} (A : FiberArray N P) (i j : Fin N) :
    rawDistanceMatrix A i j = rawDistanceMatrix A j i := by
  rw [rawDistanceMatrix, rawDistanceMatrix, fiberDistance_apply, fiberDistance_apply,
    pairMSD_comm (A.getFiber i) (A.getFiber j), pairMSD_rev_rev]

lemma colMin_le {N : ℕ} [NeZero N] (M : Matrix (Fin N) (Fin N) ℚ) (i j : Fin N) :
    colMin M j ≤ M i j :=
  Finset.inf'_le _ (Finset.mem_univ i)

lemma le_colMax {N : ℕ} [NeZero N] (M : Matrix (Fin N) (Fin N) ℚ) (i j : Fin N) :
    M i j ≤ colMax M j := by
  rw [colMax]
  exact Finset.le_sup' (fun k => M k j) (Finset.mem_univ i)

lemma colMin_le_colMax {N : ℕ} [NeZero N] (M : Matrix (Fin N) (Fin N) ℚ) (j : Fin N) :
    colMin M j ≤ colMax M j := by
  obtain ⟨i⟩ := (inferInstance : Nonempty (Fin N))
  exact (colMin_le M i j).trans (le_colMax M i j)

/-- C9. For every nonempty FiberCollection, the normalized
DistanceMatrix has a zero diagonal and the SimilarityMatrix has a unit
diagonal. -/
theorem pairwise_matrices_diag {N P : ℕ} [NeZero N] (A : FiberArray N P) (sigma : ℚ)
    (i : Fin N) :
    pairwiseDistance_matrix A i i = 0 ∧ pairwiseSimilarity_matrix A sigma i i = 1 := by
  have hmn : colMin (rawDistanceMatrix A) i ≤ 0 := by
    have h := colMin_le (rawDistanceMatrix A) i i
    rwa [rawDistanceMatrix_diag] at h
  have hmn' : 0 ≤ colMin (rawDistanceMatrix A) i := by
    rw [colMin]
    exact Finset.le_inf' _ _ (fun b _ => rawDistanceMatrix_nonneg A b i)
  have h0 : colMin (rawDistanceMatrix A) i = 0 := le_antisymm hmn hmn'
  have hd : pairwiseDistance_matrix A i i = 0 := by
    simp [pairwiseDistance_matrix, minMaxScaler, h0, rawDistanceMatrix_diag]
  refine ⟨hd, ?_⟩
  simp [pairwiseSimilarity_matrix, hd, gausKernel_similarity]

/-- A concrete one-fiber collection, for witnessing. -/
def exA1 : FiberArray 1 1 := ⟨fun _ _ => 1, fun _ _ => 2, fun _ _ => 3⟩

theorem pairwise_matrices_diag_witness :
    pairwiseDistance_matrix exA1 0 0 = 0 ∧ pairwiseSimilarity_matrix exA1 60 0 0 = 1 :=
  pairwise_matrices_diag exA1 60 0

/-- C2 amended part: the code rescales the raw distance matrix column
by column; within each column every normalized entry lies in the 0-1
range, some entry attains 0, and when the column is not constant some
entry attains 1. -/
theorem pairwiseDistance_matrix_column_minmax {N P : ℕ} [NeZero N] (A : FiberArray N P)
    (j : Fin N) :
    (∀ i, 0 ≤ pairwiseDistance_matrix A i j ∧ pairwiseDistance_matrix A i j ≤ 1)
      ∧ (∃ i, pairwiseDistance_matrix A i j = 0)
      ∧ (colMax (rawDistanceMatrix A) j ≠ colMin (rawDistanceMatrix A) j →
          ∃ i, pairwiseDistance_matrix A i j = 1) := by
  by_cases hc : colMax (rawDistanceMatrix A) j - colMin (rawDistanceMatrix A) j = 0
  · have hmx : colMax (rawDistanceMatrix A) j = colMin (rawDistanceMatrix A) j :=
      sub_eq_zero.mp hc
    have hall : ∀ i, pairwiseDistance_matrix A i j = 0 := fun i => by
      have h1 := colMin_le (rawDistanceMatrix A) i j
      have h2 := le_colMax (rawDistanceMatrix A) i j
      have he : rawDistanceMatrix A i j = colMin (rawDistanceMatrix A) j :=
        le_antisymm (hmx ▸ h2) h1
      simp [pairwiseDistance_matrix, minMaxScaler, hc, he]
    obtain ⟨i⟩ := (inferInstance : Nonempty (Fin N))
    exact ⟨fun i => by rw [hall i]; norm_num, ⟨i, hall i⟩, fun hne => (hne hmx).elim⟩
  · have hlt : colMin (rawDistanceMatrix A) j < colMax (rawDistanceMatrix A) j :=
      lt_of_le_of_ne (colMin_le_colMax _ _) (fun h => hc (by rw [h, sub_self]))
    have hpos : 0 < colMax (rawDistanceMatrix A) j - colMin (rawDistanceMatrix A) j :=
      sub_pos.mpr hlt
    have happ : ∀ i, pairwiseDistance_matrix A i j
        = (rawDistanceMatrix A i j - colMin (rawDistanceMatrix A) j)
          / (colMax (rawDistanceMatrix A) j - colMin (rawDistanceMatrix A) j) := fun i => by
      simp [pairwiseDistance_matrix, minMaxScaler, hc]
    refine ⟨fun i => ?_, ?_, fun _ => ?_⟩
    · rw [happ i]
      constructor
      · exact div_nonneg (sub_nonneg.mpr (colMin_le _ _ _)) (le_of_lt hpos)
      · exact (div_le_one hpos).mpr (sub_le_sub_right (le_colMax _ _ _) _)
    · obtain ⟨i0, -, hmin⟩ :=
        Finset.exists_mem_eq_inf' (Finset.univ_nonempty (α := Fin N))
          (fun i => rawDistanceMatrix A i j)
      refine ⟨i0, ?_⟩
      rw [happ i0]
      rw [show colMin (rawDistanceMatrix A) j = rawDistanceMatrix A i0 j from hmin]
      rw [sub_self, zero_div]
    · obtain ⟨i1, -, hmax⟩ :=
        Finset.exists_mem_eq_sup' (Finset.univ_nonempty (α := Fin N))
          (fun i => rawDistanceMatrix A i j)
      refine ⟨i1, ?_⟩
      rw [happ i1]
      rw [show colMax (rawDistanceMatrix A) j = rawDistanceMatrix A i1 j from hmax]
      exact div_self (by rw [← hmax]; exact hc)

theorem pairwiseDistance_matrix_column_minmax_witness :
    (∀ i, 0 ≤ pairwiseDistance_matrix exA1 i 0 ∧ pairwiseDistance_matrix exA1 i 0 ≤ 1)
      ∧ (∃ i, pairwiseDistance_matrix exA1 i 0 = 0)
      ∧ (colMax (rawDistanceMatrix exA1) 0 ≠ colMin (rawDistanceMatrix exA1) 0 →
          ∃ i, pairwiseDistance_matrix exA1 i 0 = 1) :=
  pairwiseDistance_matrix_column_minmax exA1 0

lemma inf'_fin3 (f : Fin 3 → ℚ) :
    Finset.univ.inf' Finset.univ_nonempty f = min (f 0) (min (f 1) (f 2)) := by
  apply le_antisymm
  · exact le_min (Finset.inf'_le _ (Finset.mem_univ 0))
      (le_min (Finset.inf'_le _ (Finset.mem_univ 1)) (Finset.inf'_le _ (Finset.mem_univ 2)))
  · apply Finset.le_inf'
    intro b _
    fin_cases b
    · exact min_le_left _ _
    · exact (min_le_right _ _).trans (min_le_left _ _)
    · exact (min_le_right _ _).trans (min_le_right _ _)

lemma sup'_fin3 (f : Fin 3 → ℚ) :
    Finset.univ.sup' Finset.univ_nonempty f = max (f 0) (max (f 1) (f 2)) := by
  apply le_antisymm
  · apply Finset.sup'_le
    intro b _
    fin_cases b
    · exact le_max_left _ _
    · exact (le_max_left _ _).trans (le_max_right _ _)
    · exact (le_max_right _ _).trans (le_max_right _ _)
  · exact max_le (Finset.le_sup' _ (Finset.mem_univ 0))
      (max_le (Finset.le_sup' _ (Finset.mem_univ 1)) (Finset.le_sup' _ (Finset.mem_univ 2)))

lemma rev_fin_one (i : Fin 1) : i.rev = i := Subsingleton.elim _ _

/-- A concrete collection of three single-point fibers at x = 0, 1, 3,
whose raw pairwise distance matrix has different maxima in different
columns. -/
def ex3 : FiberArray 3 1 :=
  ⟨fun i _ => ![0, 1, 3] i, fun _ _ => 0, fun _ _ => 0⟩

lemma ex3_raw : rawDistanceMatrix ex3 = !![0, 1, 9; 1, 0, 4; 9, 4, 0] := by
  funext i j
  fin_cases i <;> fin_cases j <;>
    norm_num [rawDistanceMatrix, fiberDistance, fiberDistance_internal,
      Fiber.getReverseFiber, FiberArray.getFiber, ex3, Fin.sum_univ_one, rev_fin_one,
      Matrix.cons_val_zero, Matrix.cons_val_one, Matrix.head_cons]

lemma ex3_nd : pairwiseDistance_matrix ex3 = !![0, 1/4, 1; 1/9, 0, 4/9; 1, 1, 0] := by
  funext i j
  rw [pairwiseDistance_matrix]
  rw [show minMaxScaler (rawDistanceMatrix ex3) i j
      = (rawDistanceMatrix ex3 i j - colMin (rawDistanceMatrix ex3) j) /
        (if colMax (rawDistanceMatrix ex3) j - colMin (rawDistanceMatrix ex3) j = 0
         then 1 else colMax (rawDistanceMatrix ex3) j - colMin (rawDistanceMatrix ex3) j)
    from rfl]
  rw [colMin, colMax, inf'_fin3, sup'_fin3, ex3_raw]
  fin_cases i <;> fin_cases j <;>
    norm_num [min_def, max_def, Matrix.cons_val_zero, Matrix.cons_val_one,
      Matrix.head_cons]

/-- Global minimum over all entries of a square matrix. -/
def gMin {N : ℕ} [NeZero N] (M : Matrix (Fin N) (Fin N) ℚ) : ℚ :=
  Finset.univ.inf' Finset.univ_nonempty (fun p : Fin N × Fin N => M p.1 p.2)

/-- Global maximum over all entries of a square matrix. -/
def gMax {N : ℕ} [NeZero N] (M : Matrix (Fin N) (Fin N) ℚ) : ℚ :=
  Finset.univ.sup' Finset.univ_nonempty (fun p : Fin N × Fin N => M p.1 p.2)

/-- Stated from the spec's words, for comparison with the code: a
rescaling of the whole matrix to the 0-1 range by a single minimum and a
single maximum computed jointly over all entries. -/
def globalMinMaxNormalize {N : ℕ} [NeZero N] (M : Matrix (Fin N) (Fin N) ℚ) :
    Matrix (Fin N) (Fin N) ℚ :=
  fun i j =>
    (M i j - gMin M) / (if gMax M - gMin M = 0 then 1 else gMax M - gMin M)

lemma ex3_gMin : gMin (rawDistanceMatrix ex3) = 0 := by
  apply le_antisymm
  · have h := Finset.inf'_le (f := fun p : Fin 3 × Fin 3 => rawDistanceMatrix ex3 p.1 p.2)
      (Finset.mem_univ ((0 : Fin 3), (0 : Fin 3)))
    rw [gMin]
    simpa [rawDistanceMatrix_diag] using h
  · rw [gMin]
    exact Finset.le_inf' _ _ (fun p _ => rawDistanceMatrix_nonneg ex3 p.1 p.2)

lemma ex3_gMax : gMax (rawDistanceMatrix ex3) = 9 := by
  apply le_antisymm
  · rw [gMax]
    apply Finset.sup'_le
    intro p _
    obtain ⟨a, b⟩ := p
    rw [ex3_raw]
    fin_cases a <;> fin_cases b <;>
      norm_num [Matrix.cons_val_zero, Matrix.cons_val_one, Matrix.head_cons]
  · have h := Finset.le_sup' (f := fun p : Fin 3 × Fin 3 => rawDistanceMatrix ex3 p.1 p.2)
      (Finset.mem_univ ((0 : Fin 3), (2 : Fin 3)))
    rw [gMax]
    rw [ex3_raw] at h ⊢
    simpa [Matrix.cons_val_zero, Matrix.cons_val_one, Matrix.head_cons] using h

/-- C2 counterexample: on the concrete three-fiber collection the
entry rescaled by the code (per-column MinMaxScaler, value 1/4) differs
from the entry rescaled by a single joint minimum and maximum over the
whole matrix (value 1/9). -/
theorem pairwise_normalization_not_global :
    pairwiseDistance_matrix ex3 0 1 ≠ globalMinMaxNormalize (rawDistanceMatrix ex3) 0 1 := by
  have hl : pairwiseDistance_matrix ex3 0 1 = 1 / 4 := by
    rw [ex3_nd]
    norm_num [Matrix.cons_val_zero, Matrix.cons_val_one, Matrix.head_cons]
  have hr : globalMinMaxNormalize (rawDistanceMatrix ex3) 0 1 = 1 / 9 := by
    rw [show globalMinMaxNormalize (rawDistanceMatrix ex3) 0 1
        = (rawDistanceMatrix ex3 0 1 - gMin (rawDistanceMatrix ex3)) /
          (if gMax (rawDistanceMatrix ex3) - gMin (rawDistanceMatrix ex3) = 0
           then 1 else gMax (rawDistanceMatrix ex3) - gMin (rawDistanceMatrix ex3))
      from rfl]
    rw [ex3_gMin, ex3_gMax, ex3_raw]
    norm_num [Matrix.cons_val_zero, Matrix.cons_val_one, Matrix.head_cons]
  rw [hl, hr]
  norm_num

/-- C3 counterexample: on the concrete three-fiber collection the
normalized DistanceMatrix and the SimilarityMatrix are both asymmetric
at the entry pair (0,1) / (1,0). -/
theorem pairwise_matrices_not_symmetric :
    pairwiseDistance_matrix ex3 0 1 ≠ pairwiseDistance_matrix ex3 1 0
      ∧ pairwiseSimilarity_matrix ex3 1 0 1 ≠ pairwiseSimilarity_matrix ex3 1 1 0 := by
  have h01 : pairwiseDistance_matrix ex3 0 1 = 1 / 4 := by
    rw [ex3_nd]
    norm_num [Matrix.cons_val_zero, Matrix.cons_val_one, Matrix.head_cons]
  have h10 : pairwiseDistance_matrix ex3 1 0 = 1 / 9 := by
    rw [ex3_nd]
    norm_num [Matrix.cons_val_zero, Matrix.cons_val_one, Matrix.head_cons]
  constructor
  · rw [h01, h10]
    norm_num
  · rw [show pairwiseSimilarity_matrix ex3 1 0 1
        = gausKernel_similarity ((pairwiseDistance_matrix ex3 0 1 : ℚ) : ℝ)
            (((1 : ℚ) : ℝ) ^ 2) from rfl]
    rw [show pairwiseSimilarity_matrix ex3 1 1 0
        = gausKernel_similarity ((pairwiseDistance_matrix ex3 1 0 : ℚ) : ℝ)
            (((1 : ℚ) : ℝ) ^ 2) from rfl]
    rw [h01, h10, gausKernel_similarity, gausKernel_similarity]
    apply ne_of_lt
    apply Real.exp_lt_exp.mpr
    norm_num

lemma degreeMatrix_colsum {N : ℕ} (W : Matrix (Fin N) (Fin N) ℝ) (i : Fin N) :
    (∑ k, degreeMatrix W k i) = ∑ k, W k i := by
  simp [degreeMatrix, Matrix.diagonal_apply]

lemma laplacianRW_rowsum {N : ℕ} (W : Matrix (Fin N) (Fin N) ℝ) (i : Fin N) :
    (∑ j, laplacianRW W i j)
      = (1 / ∑ k, W k i) * ((∑ k, W k i) - ∑ j, W i j) := by
  have happ : ∀ j, laplacianRW W i j
      = (1 / ∑ k, W k i) * (degreeMatrix W i j - W i j) := by
    intro j
    rw [laplacianRW, Matrix.diagonal_mul, Matrix.sub_apply, degreeMatrix_colsum]
  rw [Finset.sum_congr rfl (fun j _ => happ j), ← Finset.mul_sum]
  congr 1
  rw [Finset.sum_sub_distrib]
  congr 1
  rw [degreeMatrix]
  simp [Matrix.diagonal_apply]

/-- C4 amended part: each row of the random-walk Laplacian sums to 0
whenever the similarity matrix has equal row and column sums (as a
symmetric matrix does) and nonzero degrees. -/
theorem laplacianRW_rowsum_zero {N : ℕ} (W : Matrix (Fin N) (Fin N) ℝ)
    (hbal : ∀ i, (∑ j, W i j) = ∑ j, W j i) (i : Fin N) :
    (∑ j, laplacianRW W i j) = 0 := by
  rw [laplacianRW_rowsum, ← hbal i, sub_self, mul_zero]

/-- A concrete symmetric 2x2 similarity matrix, for witnessing. -/
noncomputable def exW2 : Matrix (Fin 2) (Fin 2) ℝ := !![1, 1/2; 1/2, 1]

theorem laplacianRW_rowsum_zero_witness :
    (∀ i, (∑ j, exW2 i j) = ∑ j, exW2 j i) ∧ (∑ j, laplacianRW exW2 0 j) = 0 := by
  have hbal : ∀ i, (∑ j, exW2 i j) = ∑ j, exW2 j i := by
    intro i
    fin_cases i <;>
      simp [exW2, Fin.sum_univ_two, Matrix.cons_val_zero, Matrix.cons_val_one,
        Matrix.head_cons]
  exact ⟨hbal, laplacianRW_rowsum_zero exW2 hbal 0⟩

lemma ex3_sim_entry (i j : Fin 3) :
    pairwiseSimilarity_matrix ex3 1 i j
      = Real.exp (-((pairwiseDistance_matrix ex3 i j : ℚ) : ℝ) / 2) := by
  rw [show pairwiseSimilarity_matrix ex3 1 i j
      = gausKernel_similarity ((pairwiseDistance_matrix ex3 i j : ℚ) : ℝ)
          (((1 : ℚ) : ℝ) ^ 2) from rfl]
  rw [gausKernel_similarity]
  norm_num

/-- C4 counterexample: for the similarity matrix produced by the
pipeline on the concrete three-fiber collection (sigma = 1), the first
row of the random-walk Laplacian does not sum to 0; the per-column
normalization makes W asymmetric, so its row and column sums differ. -/
theorem laplacianRW_rowsum_not_zero :
    (∑ j, laplacianRW (pairwiseSimilarity_matrix ex3 1) 0 j) ≠ 0 := by
  rw [laplacianRW_rowsum]
  have e00 : pairwiseSimilarity_matrix ex3 1 0 0 = Real.exp 0 := by
    rw [ex3_sim_entry, ex3_nd]
    norm_num [Matrix.cons_val_zero, Matrix.cons_val_one, Matrix.head_cons]
  have e01 : pairwiseSimilarity_matrix ex3 1 0 1 = Real.exp (-(1/8)) := by
    rw [ex3_sim_entry, ex3_nd]
    norm_num [Matrix.cons_val_zero, Matrix.cons_val_one, Matrix.head_cons]
  have e02 : pairwiseSimilarity_matrix ex3 1 0 2 = Real.exp (-(1/2)) := by
    rw [ex3_sim_entry, ex3_nd]
    norm_num [Matrix.cons_val_zero, Matrix.cons_val_one, Matrix.head_cons]
  have e10 : pairwiseSimilarity_matrix ex3 1 1 0 = Real.exp (-(1/18)) := by
    rw [ex3_sim_entry, ex3_nd]
    norm_num [Matrix.cons_val_zero, Matrix.cons_val_one, Matrix.head_cons]
  have e20 : pairwiseSimilarity_matrix ex3 1 2 0 = Real.exp (-(1/2)) := by
    rw [ex3_sim_entry, ex3_nd]
    norm_num [Matrix.cons_val_zero, Matrix.cons_val_one, Matrix.head_cons]
  rw [Fin.sum_univ_three, Fin.sum_univ_three, e00, e01, e02, e10, e20]
  have hc : (0:ℝ) < Real.exp 0 + Real.exp (-(1/18)) + Real.exp (-(1/2)) := by
    positivity
  have hab : Real.exp (-(1/8)) < Real.exp (-(1/18)) := by
    apply Real.exp_lt_exp.mpr
    norm_num
  have hkey : Real.exp 0 + Real.exp (-(1/18)) + Real.exp (-(1/2))
      - (Real.exp 0 + Real.exp (-(1/8)) + Real.exp (-(1/2)))
      = Real.exp (-(1/18)) - Real.exp (-(1/8)) := by ring
  rw [hkey]
  apply ne_of_gt
  exact mul_pos (by positivity) (sub_pos.mpr hab)

/-- src/cluster.py lines 185-198, _cluster_to_rgb: slice the first
three components of each row (NumPy slicing keeps fewer when the matrix
has fewer than three columns), L2-normalize the slice, and map each
component via 127.5 + value * 127.5. -/
noncomputable def cluster_to_rgb {n m : ℕ} (data : Matrix (Fin n) (Fin m) ℝ) :
    Fin n → List ℝ :=
  fun i =>
    let colour := (List.ofFn (fun j => data i j)).take 3
    let colour_len := Real.sqrt (colour.map (fun v => v ^ 2)).sum
    colour.map (fun v => 127.5 + (v / colour_len) * 127.5)

/-- The 3-component read performed by dataColour.InsertNextTuple3 at
src/cluster.py lines 215-216: components 0, 1 and 2 of a colour row; a
NumPy read of a missing component raises IndexError, modelled as none. -/
def tuple3 (l : List ℝ) : Option (ℝ × ℝ × ℝ) :=
  match l with
  | a :: b :: c :: _ => some (a, b, c)
  | _ => none

/-- src/cluster.py lines 200-226, _format_outputVTK: per fiber, emit the
colour triple of its cluster and the cluster number as an integer; the
formatting fails if any colour row has fewer than 3 components. -/
def format_outputVTK {N C : ℕ} (colour : Fin C → List ℝ) (clusterIdx : Fin N → Fin C) :
    Option ((Fin N → ℝ × ℝ × ℝ) × (Fin N → ℤ)) :=
  if h : ∀ i, (tuple3 (colour (clusterIdx i))).isSome then
    some (fun i => (tuple3 (colour (clusterIdx i))).get (h i), fun i => (clusterIdx i : ℤ))
  else none

lemma cluster_to_rgb_length {n m : ℕ} (data : Matrix (Fin n) (Fin m) ℝ) (i : Fin n) :
    (cluster_to_rgb data i).length = min 3 m := by
  simp [cluster_to_rgb]

lemma tuple3_eq_none {l : List ℝ} (h : l.length < 3) : tuple3 l = none := by
  rcases l with _ | ⟨a, _ | ⟨b, _ | ⟨c, t⟩⟩⟩
  · rfl
  · rfl
  · rfl
  · simp [List.length] at h
    omega

/-- The 2-column embedding U produced when no_of_eigvec = 2 (one row
per fiber, two retained eigenvector components). -/
noncomputable def exU2 : Matrix (Fin 2) (Fin 2) ℝ := !![1, 0; 0, 1]

/-- C6 evidence: with no_of_eigvec = 2 the colour table computed from
the two-column embedding has rows of length 2, and the output
formatting, which must read 3 colour components per fiber, fails
instead of emitting any (clusterId, 3-component colour) pairs. -/
theorem format_outputVTK_fails_on_two_eigvec :
    (∀ i, (cluster_to_rgb exU2 i).length = 2)
      ∧ format_outputVTK (cluster_to_rgb exU2) (fun i => i) = none := by
  have hlen : ∀ i, (cluster_to_rgb exU2 i).length = 2 := fun i => by
    rw [cluster_to_rgb_length]
    omega
  refine ⟨hlen, ?_⟩
  rw [format_outputVTK, dif_neg]
  intro h
  have h0 := h 0
  rw [tuple3_eq_none (by rw [hlen 0]; omega)] at h0
  simp at h0

/-- A concrete k-means centroid table (2 clusters, 3 embedding
dimensions) whose first coordinates are out of ascending order, as
k-means may return them. -/
noncomputable def exCentroids : Matrix (Fin 2) (Fin 3) ℝ := !![1, 0, 0; 0, 1, 0]

/-- The same centroids reordered by ascending first coordinate: the
order np.argsort(centroids[:,0]) describes at src/cluster.py line 69. -/
noncomputable def exCentroidsSorted : Matrix (Fin 2) (Fin 3) ℝ := !![0, 1, 0; 1, 0, 0]

/-- C5 evidence: on a concrete k-means output whose centroids are not
in ascending first-coordinate order, the colour table the code derives
from the unsorted centroids differs from the colour table derived from
the canonically reordered centroids, so the computed centroid_order
cannot have been applied. -/
theorem cluster_to_rgb_order_sensitive :
    exCentroidsSorted 0 0 < exCentroidsSorted 1 0
      ∧ (∀ i j, exCentroidsSorted i j = exCentroids (Equiv.swap 0 1 i) j)
      ∧ cluster_to_rgb exCentroids 0 ≠ cluster_to_rgb exCentroidsSorted 0 := by
  refine ⟨?_, ?_, ?_⟩
  · norm_num [exCentroidsSorted, Matrix.cons_val_zero, Matrix.cons_val_one,
      Matrix.head_cons]
  · intro i j
    fin_cases i <;> fin_cases j <;>
      simp [exCentroids, exCentroidsSorted, Equiv.swap_apply_left, Equiv.swap_apply_right,
        Matrix.cons_val_zero, Matrix.cons_val_one, Matrix.head_cons]
  · have h1 : cluster_to_rgb exCentroids 0 = [255, 127.5, 127.5] := by
      rw [cluster_to_rgb]
      simp only [List.ofFn_succ, List.ofFn_zero, Fin.isValue]
      norm_num [exCentroids, Matrix.cons_val_zero, Matrix.cons_val_one, Matrix.head_cons,
        Real.sqrt_one]
    have h2 : cluster_to_rgb exCentroidsSorted 0 = [127.5, 255, 127.5] := by
      rw [cluster_to_rgb]
      simp only [List.ofFn_succ, List.ofFn_zero, Fin.isValue]
      norm_num [exCentroidsSorted, Matrix.cons_val_zero, Matrix.cons_val_one,
        Matrix.head_cons, Real.sqrt_one]
    rw [h1, h2]
    intro h
    have := List.head_eq_of_cons_eq h
    norm_num at this

/-- The annotation state of the geometry structure handed to
spectralClustering: the fiber collection plus the two per-cell arrays
that _format_outputVTK attaches on success (absent on raw input). -/
structure Geometry (N P : ℕ) where
  fibers : FiberArray N P
  dataColour : Option (Fin N → ℝ × ℝ × ℝ)
  clusterNumber : Option (Fin N → ℤ)

/-- src/cluster.py lines 19-80, spectralClustering, modelled around its
two guard clauses (lines 32-39): with no_of_eigvec = 1 or a fiber count
of 0 the function prints a message and returns None, leaving the
geometry exactly as it was; otherwise it runs the downstream stages
(matrix construction, eigendecomposition, k-means, attachment), taken
here as an arbitrary function argument so the guard behaviour holds for
every possible downstream computation. -/
def spectralClustering {N P : ℕ} {R : Type} (g : Geometry N P)
    (k_clusters no_of_eigvec : ℕ) (sigma : ℚ) (no_of_jobs : ℕ)
    (downstream : Geometry N P → Geometry N P × R) :
    Geometry N P × Option R :=
  if no_of_eigvec = 1 then (g, none)
  else if N = 0 then (g, none)
  else ((downstream g).1, some (downstream g).2)

/-- C7. If spectralClustering is invoked with no_of_eigvec = 1 or with
a fiber count of 0, it returns the error value before any downstream
computation runs (the result does not depend on the downstream
function) and the input geometry is returned completely unmodified. -/
theorem spectralClustering_guard {N P : ℕ} {R : Type} (g : Geometry N P)
    (k_clusters no_of_eigvec : ℕ) (sigma : ℚ) (no_of_jobs : ℕ)
    (downstream : Geometry N P → Geometry N P × R)
    (h : no_of_eigvec = 1 ∨ N = 0) :
    spectralClustering g k_clusters no_of_eigvec sigma no_of_jobs downstream
      = (g, none) := by
  rcases h with h | h
  · rw [spectralClustering, if_pos h]
  · rw [spectralClustering]
    by_cases h1 : no_of_eigvec = 1
    · rw [if_pos h1]
    · rw [if_neg h1, if_pos h]

/-- The three-fiber collection wrapped as an unannotated geometry. -/
def exGeom : Geometry 3 1 := ⟨ex3, none, none⟩

theorem spectralClustering_guard_witness :
    ((1 : ℕ) = 1 ∨ (3 : ℕ) = 0)
      ∧ spectralClustering exGeom 3 1 60 2 (fun g => (g, ())) = (exGeom, none) :=
  ⟨Or.inl rfl,
    spectralClustering_guard exGeom 3 1 60 2 (fun g => (g, ())) (Or.inl rfl)⟩

/-- C8 evidence: the degree matrix of the all-zero 2x2 similarity
matrix has a zero diagonal entry, and the code still forms the
random-walk Laplacian from it (dividing by the zero degrees, which the
exact model evaluates instead of trapping); no fatal error exists on
this path. -/
theorem laplacianRW_no_zero_degree_guard :
    degreeMatrix (0 : Matrix (Fin 2) (Fin 2) ℝ) 0 0 = 0
      ∧ laplacianRW (0 : Matrix (Fin 2) (Fin 2) ℝ) = 0
      ∧ ∀ (g : Geometry 3 1) (downstream : Geometry 3 1 → Geometry 3 1 × Unit),
          (spectralClustering g 3 2 1 2 downstream).2 = some (downstream g).2 := by
  refine ⟨?_, ?_, ?_⟩
  · simp [degreeMatrix, Matrix.diagonal_apply]
  · rw [laplacianRW]
    simp [degreeMatrix]
  · intro g downstream
    rw [spectralClustering]
    norm_num
